import Mathlib

/-!
# Verification of the `EncryptedVideoConference` contract

A shallow embedding of the Solidity contract `EncryptedVideoConference`
(the conference-record ledger with time-window gating).  Addresses,
timestamps, encrypted handles, byte strings and uint32 values are
modelled as `Nat`; the external FHE collaborator (`FHE.fromExternal`,
`FHE.isInitialized`, `FHE.checkSignatures`) and the ABI decoder
(`abi.decode(bytes, (uint32))`) are modelled as an opaque deterministic
oracle record.  Solidity `require` statements become early `Except`
errors, mirroring the all-or-nothing transaction semantics of the
hosting ledger, with the error taxonomy of the specification.
-/

namespace EncryptedVideoConference

/-- The external collaborator: FHE library calls and the ABI decoder,
consumed as opaque deterministic functions.  `checkSignatures` receives
the single stored handle (the one-element `cts` array of the source),
the ABI-encoded clear key and the decryption proof. -/
structure FHEOracle where
  fromExternal : Nat → Nat → Nat
  isInitialized : Nat → Bool
  checkSignatures : Nat → Nat → Nat → Bool
  abiDecodeUint32 : Nat → Nat

/-- The `Conference` struct of the contract. -/
structure Conference where
  conferenceId : String
  encryptedStreamKey : Nat
  creator : Nat
  startTime : Nat
  endTime : Nat
  isActive : Bool
  decryptedStreamKey : Nat
  isDecrypted : Bool
deriving Repr, DecidableEq

/-- The zero-initialised struct a Solidity mapping yields for an absent key. -/
def emptyConference : Conference :=
  { conferenceId := ""
    encryptedStreamKey := 0
    creator := 0
    startTime := 0
    endTime := 0
    isActive := false
    decryptedStreamKey := 0
    isDecrypted := false }

/-- Contract storage: `mapping(string => Conference) conferences` (a total
function, absent keys giving the zero struct) and `string[] conferenceIds`. -/
structure ContractState where
  conferences : String → Conference
  conferenceIds : List String

/-- Storage right after deployment. -/
def initialState : ContractState :=
  { conferences := fun _ => emptyConference
    conferenceIds := [] }

/-- The error taxonomy of the specification; each constructor corresponds to
one `require` reason of the source (both time-range requires of
`createConference` map to `InvalidWindow`, both window requires of
`decryptStreamKey` map to `WindowClosed`). -/
inductive ConfError where
  | AlreadyExists
  | InvalidProof
  | InvalidWindow
  | NotFound
  | AlreadyDecrypted
  | WindowClosed
  | ProofInvalid
  | Forbidden
  | StillActive
deriving Repr, DecidableEq

/-- Store `c` at key `id` in the mapping. -/
def setConf (s : ContractState) (id : String) (c : Conference) : ContractState :=
  { s with conferences := fun i => if i = id then c else s.conferences i }

/-- `createConference(conferenceId, encryptedStreamKey, inputProof, startTime, endTime)`
with the transaction context (`msg.sender`, `block.timestamp`) made explicit.
The guard order is that of the source: existence, encrypted-input validity,
`startTime < endTime`, `block.timestamp < endTime`; on success the record is
stored and the id appended to `conferenceIds`. -/
def createConference (o : FHEOracle) (s : ContractState) (sender now : Nat)
    (conferenceId : String) (encryptedStreamKey inputProof : Nat)
    (startTime endTime : Nat) : Except ConfError ContractState :=
  if (s.conferences conferenceId).conferenceId.length = 0 then
    if o.isInitialized (o.fromExternal encryptedStreamKey inputProof) then
      if startTime < endTime then
        if now < endTime then
          .ok { setConf s conferenceId
                  { conferenceId := conferenceId
                    encryptedStreamKey := o.fromExternal encryptedStreamKey inputProof
                    creator := sender
                    startTime := startTime
                    endTime := endTime
                    isActive := true
                    decryptedStreamKey := 0
                    isDecrypted := false } with
                conferenceIds := s.conferenceIds ++ [conferenceId] }
        else .error .InvalidWindow
      else .error .InvalidWindow
    else .error .InvalidProof
  else .error .AlreadyExists

/-- `decryptStreamKey(conferenceId, abiEncodedClearKey, decryptionProof)`:
guards in source order (existence, not yet decrypted, window start, window
end, signature check on the stored handle); on success stores the decoded
clear key and sets the decrypted flag. -/
def decryptStreamKey (o : FHEOracle) (s : ContractState) (now : Nat)
    (conferenceId : String) (abiEncodedClearKey decryptionProof : Nat) :
    Except ConfError ContractState :=
  if 0 < (s.conferences conferenceId).conferenceId.length then
    if (s.conferences conferenceId).isDecrypted then .error .AlreadyDecrypted
    else
      if (s.conferences conferenceId).startTime ≤ now then
        if now ≤ (s.conferences conferenceId).endTime then
          if o.checkSignatures (s.conferences conferenceId).encryptedStreamKey
              abiEncodedClearKey decryptionProof then
            .ok (setConf s conferenceId
                  { s.conferences conferenceId with
                    decryptedStreamKey := o.abiDecodeUint32 abiEncodedClearKey
                    isDecrypted := true })
          else .error .ProofInvalid
        else .error .WindowClosed
      else .error .WindowClosed
  else .error .NotFound

/-- `getEncryptedStreamKey(conferenceId)`: view returning the stored handle. -/
def getEncryptedStreamKey (s : ContractState) (conferenceId : String) :
    Except ConfError Nat :=
  if 0 < (s.conferences conferenceId).conferenceId.length then
    .ok (s.conferences conferenceId).encryptedStreamKey
  else .error .NotFound

/-- `getConferenceDetails(conferenceId)`: view returning
`(creator, startTime, endTime, isActive, isDecrypted, decryptedStreamKey)`. -/
def getConferenceDetails (s : ContractState) (conferenceId : String) :
    Except ConfError (Nat × Nat × Nat × Bool × Bool × Nat) :=
  if 0 < (s.conferences conferenceId).conferenceId.length then
    .ok ((s.conferences conferenceId).creator,
         (s.conferences conferenceId).startTime,
         (s.conferences conferenceId).endTime,
         (s.conferences conferenceId).isActive,
         (s.conferences conferenceId).isDecrypted,
         (s.conferences conferenceId).decryptedStreamKey)
  else .error .NotFound

/-- `getAllConferenceIds()`: view returning the id list. -/
def getAllConferenceIds (s : ContractState) : List String :=
  s.conferenceIds

/-- `endConference(conferenceId)`: guards in source order (existence,
creator-only, `block.timestamp > endTime`); on success clears `isActive`. -/
def endConference (s : ContractState) (sender now : Nat)
    (conferenceId : String) : Except ConfError ContractState :=
  if 0 < (s.conferences conferenceId).conferenceId.length then
    if sender = (s.conferences conferenceId).creator then
      if (s.conferences conferenceId).endTime < now then
        .ok (setConf s conferenceId
              { s.conferences conferenceId with isActive := false })
      else .error .StillActive
    else .error .Forbidden
  else .error .NotFound

/-- `isConferenceActive(conferenceId)`: view returning the active flag. -/
def isConferenceActive (s : ContractState) (conferenceId : String) :
    Except ConfError Bool :=
  if 0 < (s.conferences conferenceId).conferenceId.length then
    .ok (s.conferences conferenceId).isActive
  else .error .NotFound

/-- One mutating transaction submitted to the contract, carrying its
transaction context (`msg.sender` where the function reads it, and
`block.timestamp`). -/
inductive Op where
  | create (sender now : Nat) (conferenceId : String)
      (encryptedStreamKey inputProof startTime endTime : Nat)
  | decrypt (now : Nat) (conferenceId : String)
      (abiEncodedClearKey decryptionProof : Nat)
  | endConf (sender now : Nat) (conferenceId : String)
deriving Repr, DecidableEq

/-- Run one transaction, returning the new storage or the revert reason. -/
def runOp (o : FHEOracle) (s : ContractState) : Op → Except ConfError ContractState
  | .create sender now id ek pf st en => createConference o s sender now id ek pf st en
  | .decrypt now id ck pf => decryptStreamKey o s now id ck pf
  | .endConf sender now id => endConference s sender now id

/-- The storage after a transaction: a reverted transaction leaves the
storage unchanged (the ledger's all-or-nothing semantics). -/
def applyOp (o : FHEOracle) (s : ContractState) (op : Op) : ContractState :=
  match runOp o s op with
  | .ok s' => s'
  | .error _ => s

/-- The storage after a sequence of transactions. -/
def runOps (o : FHEOracle) (s : ContractState) (ops : List Op) : ContractState :=
  ops.foldl (applyOp o) s

/-- Storage states reachable from deployment by some transaction sequence. -/
inductive Reachable (o : FHEOracle) : ContractState → Prop
  | init : Reachable o initialState
  | step {s : ContractState} (op : Op) : Reachable o s → Reachable o (applyOp o s op)

/-- The ids of the transactions in `ops` that are `create` calls succeeding
from `s`, in order: the specification's "ids of all successfully created
records, in creation order". -/
def succCreates (o : FHEOracle) (s : ContractState) : List Op → List String
  | [] => []
  | op :: ops =>
      (match op with
       | .create _ _ id _ _ _ _ => if (runOp o s op).isOk then [id] else []
       | _ => []) ++ succCreates o (applyOp o s op) ops

/-- Invariant tying the mapping to the id list on reachable storage states:
keys never created hold the zero struct, a created nonempty key stores its
own id in `conferenceId`, the record at key `""` always has an empty
`conferenceId` and clean decryption fields, and once created the key `""`
has `isActive` set. -/
def GoodState (s : ContractState) : Prop :=
  (∀ id, id ∉ s.conferenceIds → s.conferences id = emptyConference) ∧
  (∀ id, id ≠ "" → id ∈ s.conferenceIds → (s.conferences id).conferenceId = id) ∧
  ((s.conferences "").conferenceId = "" ∧
   (s.conferences "").isDecrypted = false ∧
   (s.conferences "").decryptedStreamKey = 0) ∧
  ("" ∈ s.conferenceIds → (s.conferences "").isActive = true)

/-! ## Basic lemmas -/

theorem length_eq_zero_iff {s : String} : s.length = 0 ↔ s = "" := by
  cases s with
  | mk d =>
      cases d <;> simp [String.length, String.ext_iff]

theorem setConf_self (s : ContractState) (id : String) (c : Conference) :
    (setConf s id c).conferences id = c := by
  simp [setConf]

theorem setConf_other (s : ContractState) (id : String) (c : Conference)
    {i : String} (h : i ≠ id) : (setConf s id c).conferences i = s.conferences i := by
  simp [setConf, h]

theorem setConf_ids (s : ContractState) (id : String) (c : Conference) :
    (setConf s id c).conferenceIds = s.conferenceIds := by
  simp [setConf]

/-- The record stored by a successful `createConference`. -/
def createdConference (o : FHEOracle) (sender : Nat) (id : String)
    (ek pf st en : Nat) : Conference :=
  { conferenceId := id
    encryptedStreamKey := o.fromExternal ek pf
    creator := sender
    startTime := st
    endTime := en
    isActive := true
    decryptedStreamKey := 0
    isDecrypted := false }

theorem createConference_ok_iff {o : FHEOracle} {s : ContractState}
    {sender now : Nat} {id : String} {ek pf st en : Nat} {s' : ContractState} :
    createConference o s sender now id ek pf st en = .ok s' ↔
      ((s.conferences id).conferenceId.length = 0 ∧
       o.isInitialized (o.fromExternal ek pf) = true ∧ st < en ∧ now < en ∧
       s' = { setConf s id (createdConference o sender id ek pf st en) with
              conferenceIds := s.conferenceIds ++ [id] }) := by
  unfold createConference createdConference
  split <;> rename_i h1
  · split <;> rename_i h2
    · split <;> rename_i h3
      · split <;> rename_i h4
        · constructor
          · intro h; injection h with h; exact ⟨h1, h2, h3, h4, h.symm⟩
          · rintro ⟨-, -, -, -, rfl⟩; rfl
        · simp_all
      · simp_all
    · simp_all
  · simp_all

theorem decryptStreamKey_ok_iff {o : FHEOracle} {s : ContractState}
    {now : Nat} {id : String} {ck pf : Nat} {s' : ContractState} :
    decryptStreamKey o s now id ck pf = .ok s' ↔
      (0 < (s.conferences id).conferenceId.length ∧
       (s.conferences id).isDecrypted = false ∧
       (s.conferences id).startTime ≤ now ∧ now ≤ (s.conferences id).endTime ∧
       o.checkSignatures (s.conferences id).encryptedStreamKey ck pf = true ∧
       s' = setConf s id
              { s.conferences id with
                decryptedStreamKey := o.abiDecodeUint32 ck
                isDecrypted := true }) := by
  unfold decryptStreamKey
  split <;> rename_i h1
  · split <;> rename_i h2
    · simp_all
    · split <;> rename_i h3
      · split <;> rename_i h4
        · split <;> rename_i h5
          · constructor
            · intro h; injection h with h
              exact ⟨h1, by simp_all, h3, h4, h5, h.symm⟩
            · rintro ⟨-, -, -, -, -, rfl⟩; rfl
          · simp_all
        · simp_all
      · simp_all
  · simp_all

theorem endConference_ok_iff {s : ContractState} {sender now : Nat}
    {id : String} {s' : ContractState} :
    endConference s sender now id = .ok s' ↔
      (0 < (s.conferences id).conferenceId.length ∧
       sender = (s.conferences id).creator ∧
       (s.conferences id).endTime < now ∧
       s' = setConf s id { s.conferences id with isActive := false }) := by
  unfold endConference
  split <;> rename_i h1
  · split <;> rename_i h2
    · split <;> rename_i h3
      · constructor
        · intro h; injection h with h; exact ⟨h1, h2, h3, h.symm⟩
        · rintro ⟨-, -, -, rfl⟩; rfl
      · simp_all
    · simp_all
  · simp_all

/-! ## The reachable-state invariant -/

theorem goodState_initial : GoodState initialState := by
  refine ⟨fun id _ => rfl, fun id _ h => absurd h (by simp [initialState]), ⟨rfl, rfl, rfl⟩, ?_⟩
  intro h; exact absurd h (by simp [initialState])

/-- A key whose stored `conferenceId` is nonempty was created: it is in the
id list and is itself nonempty. -/
theorem exists_mem_ids {s : ContractState} (hg : GoodState s) {id : String}
    (h : 0 < (s.conferences id).conferenceId.length) :
    id ∈ s.conferenceIds ∧ id ≠ "" := by
  obtain ⟨hempty, -, h3, -⟩ := hg
  constructor
  · by_contra hmem
    rw [hempty id hmem] at h
    simp [emptyConference] at h
  · rintro rfl
    rw [h3.1] at h
    simp at h

/-- On a good state, for a nonempty id being stored (a successful create
put it in the id list) coincides with the contract's sentinel existence
guard (the stored `conferenceId` is nonempty). -/
theorem mem_iff_guard {s : ContractState} (hg : GoodState s) {id : String}
    (hne : id ≠ "") :
    id ∈ s.conferenceIds ↔ 0 < (s.conferences id).conferenceId.length := by
  constructor
  · intro hm
    obtain ⟨-, hkey, -, -⟩ := hg
    rw [hkey id hne hm]
    exact Nat.pos_of_ne_zero fun h0 => hne (length_eq_zero_iff.mp h0)
  · intro hpos
    exact (exists_mem_ids hg hpos).1

theorem goodState_create {o : FHEOracle} {s : ContractState}
    {sender now : Nat} {id : String} {ek pf st en : Nat} {s' : ContractState}
    (hg : GoodState s)
    (h : createConference o s sender now id ek pf st en = .ok s') : GoodState s' := by
  obtain ⟨hempty, hkey, h3, h4⟩ := hg
  rw [createConference_ok_iff] at h
  obtain ⟨hguard, -, -, -, rfl⟩ := h
  refine ⟨?_, ?_, ?_, ?_⟩
  · intro j hj
    simp only [List.mem_append, List.mem_singleton, not_or] at hj
    simpa [setConf, hj.2] using hempty j hj.1
  · intro j hne hmem
    by_cases hji : j = id
    · subst hji; simp [setConf, createdConference]
    · simp only [List.mem_append, List.mem_singleton, hji, or_false] at hmem
      simpa [setConf, hji] using hkey j hne hmem
  · by_cases hid : id = ""
    · subst hid; simp [setConf, createdConference]
    · have hid' : "" ≠ id := Ne.symm hid
      simpa [setConf, hid'] using h3
  · intro hmem
    by_cases hid : id = ""
    · subst hid; simp [setConf, createdConference]
    · have hid' : "" ≠ id := Ne.symm hid
      simp only [List.mem_append, List.mem_singleton, hid', or_false] at hmem
      simpa [setConf, hid'] using h4 hmem

theorem goodState_decrypt {o : FHEOracle} {s : ContractState}
    {now : Nat} {id : String} {ck pf : Nat} {s' : ContractState}
    (hg : GoodState s)
    (h : decryptStreamKey o s now id ck pf = .ok s') : GoodState s' := by
  rw [decryptStreamKey_ok_iff] at h
  obtain ⟨hguard, -, -, -, -, rfl⟩ := h
  obtain ⟨hmemid, hneid⟩ := exists_mem_ids hg hguard
  obtain ⟨hempty, hkey, h3, h4⟩ := hg
  refine ⟨?_, ?_, ?_, ?_⟩
  · intro j hj
    simp only [setConf_ids] at hj
    have hji : j ≠ id := fun h => hj (h ▸ hmemid)
    simpa [setConf, hji] using hempty j hj
  · intro j hne hmem
    simp only [setConf_ids] at hmem
    by_cases hji : j = id
    · subst hji; simpa [setConf] using hkey j hne hmem
    · simpa [setConf, hji] using hkey j hne hmem
  · have hne' : "" ≠ id := Ne.symm hneid
    simpa [setConf, hne'] using h3
  · intro hmem
    simp only [setConf_ids] at hmem
    have hne' : "" ≠ id := Ne.symm hneid
    simpa [setConf, hne'] using h4 hmem

theorem goodState_endConference {s : ContractState}
    {sender now : Nat} {id : String} {s' : ContractState}
    (hg : GoodState s)
    (h : endConference s sender now id = .ok s') : GoodState s' := by
  rw [endConference_ok_iff] at h
  obtain ⟨hguard, -, -, rfl⟩ := h
  obtain ⟨hmemid, hneid⟩ := exists_mem_ids hg hguard
  obtain ⟨hempty, hkey, h3, h4⟩ := hg
  refine ⟨?_, ?_, ?_, ?_⟩
  · intro j hj
    simp only [setConf_ids] at hj
    have hji : j ≠ id := fun h => hj (h ▸ hmemid)
    simpa [setConf, hji] using hempty j hj
  · intro j hne hmem
    simp only [setConf_ids] at hmem
    by_cases hji : j = id
    · subst hji; simpa [setConf] using hkey j hne hmem
    · simpa [setConf, hji] using hkey j hne hmem
  · have hne' : "" ≠ id := Ne.symm hneid
    simpa [setConf, hne'] using h3
  · intro hmem
    simp only [setConf_ids] at hmem
    have hne' : "" ≠ id := Ne.symm hneid
    simpa [setConf, hne'] using h4 hmem

theorem goodState_applyOp {o : FHEOracle} {s : ContractState}
    (hg : GoodState s) (op : Op) : GoodState (applyOp o s op) := by
  unfold applyOp
  cases hrun : runOp o s op with
  | error e => exact hg
  | ok s' =>
      cases op with
      | create sender now id ek pf st en => exact goodState_create hg hrun
      | decrypt now id ck pf => exact goodState_decrypt hg hrun
      | endConf sender now id => exact goodState_endConference hg hrun

theorem reachable_goodState {o : FHEOracle} {s : ContractState}
    (h : Reachable o s) : GoodState s := by
  induction h with
  | init => exact goodState_initial
  | step op _ ih => exact goodState_applyOp ih op

/-! ## Per-step persistence lemmas -/

/-- On a good state, a key storing an empty `conferenceId` has clean
decryption fields. -/
theorem clean_of_empty {s : ContractState} (hg : GoodState s) (id : String)
    (h : (s.conferences id).conferenceId = "") :
    (s.conferences id).isDecrypted = false ∧
    (s.conferences id).decryptedStreamKey = 0 := by
  obtain ⟨hempty, hkey, h3, -⟩ := hg
  by_cases hmem : id ∈ s.conferenceIds
  · by_cases hid : id = ""
    · subst hid; exact ⟨h3.2.1, h3.2.2⟩
    · exact absurd (hkey id hid hmem) (h ▸ Ne.symm hid)
  · rw [hempty id hmem]
    exact ⟨rfl, rfl⟩

/-- The id list only grows: membership persists across any transaction. -/
theorem mem_ids_applyOp {o : FHEOracle} {s : ContractState} {id : String}
    (h : id ∈ s.conferenceIds) (op : Op) :
    id ∈ (applyOp o s op).conferenceIds := by
  unfold applyOp
  cases hrun : runOp o s op with
  | error e => exact h
  | ok s' =>
      cases op with
      | create sender now id' ek pf st en =>
          simp only [runOp] at hrun
          rw [createConference_ok_iff] at hrun
          obtain ⟨-, -, -, -, rfl⟩ := hrun
          simp [setConf]
          exact .inl h
      | decrypt now id' ck pf =>
          simp only [runOp] at hrun
          rw [decryptStreamKey_ok_iff] at hrun
          obtain ⟨-, -, -, -, -, rfl⟩ := hrun
          simpa [setConf_ids] using h
      | endConf sender now id' =>
          simp only [runOp] at hrun
          rw [endConference_ok_iff] at hrun
          obtain ⟨-, -, -, rfl⟩ := hrun
          simpa [setConf_ids] using h

/-- On a good state, any transaction that is not a `decryptStreamKey` call on
`id` leaves the pair `decryptedStreamKey`/`isDecrypted` at `id` unchanged. -/
theorem decrypted_fields_applyOp {o : FHEOracle} {s : ContractState}
    (hg : GoodState s) (id : String) (op : Op)
    (hop : ∀ now ck pf, op ≠ .decrypt now id ck pf) :
    ((applyOp o s op).conferences id).decryptedStreamKey
        = (s.conferences id).decryptedStreamKey ∧
    ((applyOp o s op).conferences id).isDecrypted
        = (s.conferences id).isDecrypted := by
  unfold applyOp
  cases hrun : runOp o s op with
  | error e => exact ⟨rfl, rfl⟩
  | ok s' =>
      cases op with
      | create sender now id' ek pf st en =>
          simp only [runOp] at hrun
          rw [createConference_ok_iff] at hrun
          obtain ⟨hlen, -, -, -, rfl⟩ := hrun
          by_cases hii : id = id'
          · subst hii
            obtain ⟨hd, hk⟩ := clean_of_empty hg id (length_eq_zero_iff.mp hlen)
            simp [setConf, createdConference, hd, hk]
          · simp [setConf, hii]
      | decrypt now id' ck pf =>
          simp only [runOp] at hrun
          rw [decryptStreamKey_ok_iff] at hrun
          obtain ⟨-, -, -, -, -, rfl⟩ := hrun
          have hii : id ≠ id' := by
            intro h; exact hop now ck pf (by rw [h])
          simp [setConf, hii]
      | endConf sender now id' =>
          simp only [runOp] at hrun
          rw [endConference_ok_iff] at hrun
          obtain ⟨-, -, -, rfl⟩ := hrun
          by_cases hii : id = id'
          · subst hii; simp [setConf]
          · simp [setConf, hii]

/-- On a good state, once a record is decrypted it stays decrypted and its
clear key never changes, across any single transaction. -/
theorem decrypted_persists_applyOp {o : FHEOracle} {s : ContractState}
    (hg : GoodState s) (id : String) (op : Op)
    (h : (s.conferences id).isDecrypted = true) :
    ((applyOp o s op).conferences id).isDecrypted = true ∧
    ((applyOp o s op).conferences id).decryptedStreamKey
        = (s.conferences id).decryptedStreamKey := by
  unfold applyOp
  cases hrun : runOp o s op with
  | error e => exact ⟨h, rfl⟩
  | ok s' =>
      cases op with
      | create sender now id' ek pf st en =>
          simp only [runOp] at hrun
          rw [createConference_ok_iff] at hrun
          obtain ⟨hlen, -, -, -, rfl⟩ := hrun
          by_cases hii : id = id'
          · subst hii
            obtain ⟨hd, -⟩ := clean_of_empty hg id (length_eq_zero_iff.mp hlen)
            rw [h] at hd; cases hd
          · simp [setConf, hii, h]
      | decrypt now id' ck pf =>
          simp only [runOp] at hrun
          rw [decryptStreamKey_ok_iff] at hrun
          obtain ⟨-, hnd, -, -, -, rfl⟩ := hrun
          have hii : id ≠ id' := by
            intro he; rw [he, hnd] at h; cases h
          simp [setConf, hii, h]
      | endConf sender now id' =>
          simp only [runOp] at hrun
          rw [endConference_ok_iff] at hrun
          obtain ⟨-, -, -, rfl⟩ := hrun
          by_cases hii : id = id'
          · subst hii; simp [setConf, h]
          · simp [setConf, hii, h]

/-- On a good state, a created record whose `isActive` flag is cleared never
becomes active again, across any single transaction. -/
theorem inactive_persists_applyOp {o : FHEOracle} {s : ContractState}
    (hg : GoodState s) (id : String) (op : Op)
    (hmem : id ∈ s.conferenceIds)
    (h : (s.conferences id).isActive = false) :
    ((applyOp o s op).conferences id).isActive = false := by
  unfold applyOp
  cases hrun : runOp o s op with
  | error e => exact h
  | ok s' =>
      cases op with
      | create sender now id' ek pf st en =>
          simp only [runOp] at hrun
          rw [createConference_ok_iff] at hrun
          obtain ⟨hlen, -, -, -, rfl⟩ := hrun
          by_cases hii : id = id'
          · subst hii
            obtain ⟨-, hkey, -, h4⟩ := hg
            by_cases hid : id = ""
            · subst hid; rw [h4 hmem] at h; cases h
            · exact absurd
                ((hkey id hid hmem).symm.trans (length_eq_zero_iff.mp hlen)) hid
          · simp [setConf, hii, h]
      | decrypt now id' ck pf =>
          simp only [runOp] at hrun
          rw [decryptStreamKey_ok_iff] at hrun
          obtain ⟨-, -, -, -, -, rfl⟩ := hrun
          by_cases hii : id = id'
          · subst hii; simp [setConf, h]
          · simp [setConf, hii, h]
      | endConf sender now id' =>
          simp only [runOp] at hrun
          rw [endConference_ok_iff] at hrun
          obtain ⟨-, -, -, rfl⟩ := hrun
          by_cases hii : id = id'
          · subst hii; simp [setConf]
          · simp [setConf, hii, h]

/-! ## Trace-level lemmas -/

theorem runOps_nil (o : FHEOracle) (s : ContractState) : runOps o s [] = s := rfl

theorem runOps_cons (o : FHEOracle) (s : ContractState) (op : Op) (ops : List Op) :
    runOps o s (op :: ops) = runOps o (applyOp o s op) ops := rfl

theorem goodState_runOps {o : FHEOracle} {s : ContractState}
    (hg : GoodState s) (ops : List Op) : GoodState (runOps o s ops) := by
  induction ops generalizing s with
  | nil => exact hg
  | cons op ops ih => exact ih (goodState_applyOp hg op)

theorem mem_ids_runOps {o : FHEOracle} {s : ContractState} {id : String}
    (h : id ∈ s.conferenceIds) (ops : List Op) :
    id ∈ (runOps o s ops).conferenceIds := by
  induction ops generalizing s with
  | nil => exact h
  | cons op ops ih => exact ih (mem_ids_applyOp h op)

theorem decrypted_persists_runOps {o : FHEOracle} {s : ContractState}
    (hg : GoodState s) (id : String) (ops : List Op)
    (h : (s.conferences id).isDecrypted = true) :
    ((runOps o s ops).conferences id).isDecrypted = true ∧
    ((runOps o s ops).conferences id).decryptedStreamKey
        = (s.conferences id).decryptedStreamKey := by
  induction ops generalizing s with
  | nil => exact ⟨h, rfl⟩
  | cons op ops ih =>
      obtain ⟨h1, h2⟩ := decrypted_persists_applyOp hg id op h
      obtain ⟨h1', h2'⟩ := ih (goodState_applyOp hg op) h1
      exact ⟨h1', h2'.trans h2⟩

theorem inactive_persists_runOps {o : FHEOracle} {s : ContractState}
    (hg : GoodState s) (id : String) (ops : List Op)
    (hmem : id ∈ s.conferenceIds)
    (h : (s.conferences id).isActive = false) :
    ((runOps o s ops).conferences id).isActive = false := by
  induction ops generalizing s with
  | nil => exact h
  | cons op ops ih =>
      exact ih (goodState_applyOp hg op) (mem_ids_applyOp hmem op)
        (inactive_persists_applyOp hg id op hmem h)

/-- On a good state, once decrypted a record keeps the contract's existence
guard satisfied. -/
theorem decrypted_nonempty {s : ContractState} (hg : GoodState s) (id : String)
    (h : (s.conferences id).isDecrypted = true) :
    0 < (s.conferences id).conferenceId.length := by
  by_contra hlen
  have h0 : (s.conferences id).conferenceId.length = 0 := Nat.eq_zero_of_not_pos hlen
  obtain ⟨hd, -⟩ := clean_of_empty hg id (length_eq_zero_iff.mp h0)
  rw [h] at hd; cases hd

/-! ## A concrete oracle and concrete states, used to evaluate the
operations on explicit inputs -/

/-- A deterministic collaborator accepting every proof: `fromExternal`
returns the external handle itself and the ABI decoder is the identity. -/
def oracle0 : FHEOracle :=
  { fromExternal := fun ek _ => ek
    isInitialized := fun _ => true
    checkSignatures := fun _ _ _ => true
    abiDecodeUint32 := fun b => b }

/-- The storage after `createConference("c", 7, 9, 1, 2)` from sender 5 at
time 0 on fresh storage. -/
def exampleState : ContractState :=
  { setConf initialState "c" (createdConference oracle0 5 "c" 7 9 1 2) with
    conferenceIds := initialState.conferenceIds ++ ["c"] }

theorem exampleState_eq :
    createConference oracle0 initialState 5 0 "c" 7 9 1 2 = .ok exampleState := rfl

theorem exampleState_reachable : Reachable oracle0 exampleState :=
  Reachable.step (Op.create 5 0 "c" 7 9 1 2) Reachable.init

/-- The storage after `createConference("", 7, 9, 1, 2)` from sender 5 at
time 0 on fresh storage: the empty-id record. -/
def emptyIdState : ContractState :=
  { setConf initialState "" (createdConference oracle0 5 "" 7 9 1 2) with
    conferenceIds := initialState.conferenceIds ++ [""] }

/-- The storage after a second `createConference("", 8, 9, 1, 2)` from
sender 6 on top of `emptyIdState`. -/
def emptyIdState2 : ContractState :=
  { setConf emptyIdState "" (createdConference oracle0 6 "" 8 9 1 2) with
    conferenceIds := emptyIdState.conferenceIds ++ [""] }

theorem emptyIdState_reachable : Reachable oracle0 emptyIdState :=
  Reachable.step (Op.create 5 0 "" 7 9 1 2) Reachable.init

/-! ## The claims -/

/-- C1, counterexample: for the empty conference id, `createConference`
succeeds on fresh storage, yet the immediately following
`getConferenceDetails` call on the same id reverts with `NotFound` instead
of returning the stored record. -/
theorem spec_C1_counterexample :
    createConference oracle0 initialState 5 0 "" 7 9 1 2 = .ok emptyIdState ∧
    getConferenceDetails emptyIdState "" = .error .NotFound :=
  ⟨rfl, rfl⟩

/-- C1 (amended to nonempty ids): for every nonempty id, a successful
`createConference(id, encryptedValue, proof, startTime, endTime)` followed
immediately by `getConferenceDetails(id)` returns `creator` equal to the
caller of the create, the supplied `startTime` and `endTime`,
`isActive = true`, `isDecrypted = false` and `decryptedStreamKey = 0`. -/
theorem spec_C1_create_then_get {o : FHEOracle} {s : ContractState}
    {sender now : Nat} {id : String} {ek pf st en : Nat} {s' : ContractState}
    (hid : id ≠ "")
    (h : createConference o s sender now id ek pf st en = .ok s') :
    getConferenceDetails s' id = .ok (sender, st, en, true, false, 0) := by
  rw [createConference_ok_iff] at h
  obtain ⟨-, -, -, -, rfl⟩ := h
  have hlen : 0 < id.length :=
    Nat.pos_of_ne_zero fun h0 => hid (length_eq_zero_iff.mp h0)
  simp [getConferenceDetails, setConf, createdConference, hlen]

/-- C1 witness: the amended claim evaluated on `exampleState`. -/
theorem spec_C1_witness :
    getConferenceDetails exampleState "c" = .ok (5, 1, 2, true, false, 0) :=
  spec_C1_create_then_get (by decide) exampleState_eq

/-- Guard-order case analysis of `decryptStreamKey`, phrased in terms of
the contract's sentinel existence guard (the stored `conferenceId` is
nonempty). -/
theorem decryptStreamKey_guard_cases (o : FHEOracle) (s : ContractState)
    (now : Nat) (id : String) (ck pf : Nat) :
    ((s.conferences id).conferenceId.length = 0 →
        decryptStreamKey o s now id ck pf = .error .NotFound) ∧
    (0 < (s.conferences id).conferenceId.length →
      (s.conferences id).isDecrypted = true →
        decryptStreamKey o s now id ck pf = .error .AlreadyDecrypted) ∧
    (0 < (s.conferences id).conferenceId.length →
      (s.conferences id).isDecrypted = false →
      (now < (s.conferences id).startTime ∨ (s.conferences id).endTime < now) →
        decryptStreamKey o s now id ck pf = .error .WindowClosed) ∧
    (0 < (s.conferences id).conferenceId.length →
      (s.conferences id).isDecrypted = false →
      (s.conferences id).startTime ≤ now → now ≤ (s.conferences id).endTime →
      o.checkSignatures (s.conferences id).encryptedStreamKey ck pf = false →
        decryptStreamKey o s now id ck pf = .error .ProofInvalid) ∧
    ((∃ s', decryptStreamKey o s now id ck pf = .ok s') ↔
      (0 < (s.conferences id).conferenceId.length ∧
       (s.conferences id).isDecrypted = false ∧
       (s.conferences id).startTime ≤ now ∧
       now ≤ (s.conferences id).endTime ∧
       o.checkSignatures (s.conferences id).encryptedStreamKey ck pf = true)) := by
  refine ⟨?_, ?_, ?_, ?_, ?_⟩
  · intro h
    simp [decryptStreamKey, h]
  · intro h1 h2
    simp [decryptStreamKey, h1, h2]
  · intro h1 h2 h3
    rcases h3 with h3 | h3
    · simp [decryptStreamKey, h1, h2, Nat.not_le.mpr h3]
    · by_cases hst : (s.conferences id).startTime ≤ now
      · simp [decryptStreamKey, h1, h2, hst, Nat.not_le.mpr h3]
      · simp [decryptStreamKey, h1, h2, hst]
  · intro h1 h2 h3 h4 h5
    simp [decryptStreamKey, h1, h2, h3, h4, h5]
  · by_cases c1 : 0 < (s.conferences id).conferenceId.length
    · by_cases c2 : (s.conferences id).isDecrypted
      · simp [decryptStreamKey, c1, c2]
      · by_cases c3 : (s.conferences id).startTime ≤ now
        · by_cases c4 : now ≤ (s.conferences id).endTime
          · by_cases c5 :
              o.checkSignatures (s.conferences id).encryptedStreamKey ck pf
            · simp [decryptStreamKey, c1, c2, c3, c4, c5]
            · simp [decryptStreamKey, c1, c2, c3, c4, c5]
          · simp [decryptStreamKey, c1, c2, c3, c4]
        · simp [decryptStreamKey, c1, c2, c3]
    · simp [decryptStreamKey, c1]

/-- C2, counterexample: at the reachable storage holding a record under the
empty id — stored (its id is in the id list), not decrypted, inside its
window `[1,2]` at time 1, with the collaborator accepting every proof — the
claim's "succeeds exactly when none of these conditions holds" demands
success, yet `decryptStreamKey` reverts with `NotFound`. -/
theorem spec_C2_counterexample :
    createConference oracle0 initialState 5 0 "" 7 9 1 2 = .ok emptyIdState ∧
    "" ∈ emptyIdState.conferenceIds ∧
    (emptyIdState.conferences "").isDecrypted = false ∧
    (emptyIdState.conferences "").startTime ≤ 1 ∧
    1 ≤ (emptyIdState.conferences "").endTime ∧
    oracle0.checkSignatures (emptyIdState.conferences "").encryptedStreamKey
        42 9 = true ∧
    decryptStreamKey oracle0 emptyIdState 1 "" 42 9 = .error .NotFound :=
  ⟨rfl, by decide, rfl, by decide, by decide, rfl, rfl⟩

/-- C2 (amended to nonempty ids, stored = in the id list): on any reachable
storage and for every nonempty id, `decryptStreamKey` fails with `NotFound`
when no record with that id is stored; otherwise with `AlreadyDecrypted`
when the decrypted flag is set; otherwise with `WindowClosed` when the time
is outside `[startTime, endTime]`; otherwise with `ProofInvalid` when the
collaborator's signature check rejects; and it succeeds exactly when none
of these conditions holds.  (On the empty id the call fails with `NotFound`
even when a record is stored.) -/
theorem spec_C2_submitDecryption_cases (o : FHEOracle) (s : ContractState)
    (h : Reachable o s) (id : String) (hne : id ≠ "") (now ck pf : Nat) :
    (id ∉ s.conferenceIds →
        decryptStreamKey o s now id ck pf = .error .NotFound) ∧
    (id ∈ s.conferenceIds → (s.conferences id).isDecrypted = true →
        decryptStreamKey o s now id ck pf = .error .AlreadyDecrypted) ∧
    (id ∈ s.conferenceIds → (s.conferences id).isDecrypted = false →
      (now < (s.conferences id).startTime ∨ (s.conferences id).endTime < now) →
        decryptStreamKey o s now id ck pf = .error .WindowClosed) ∧
    (id ∈ s.conferenceIds → (s.conferences id).isDecrypted = false →
      (s.conferences id).startTime ≤ now → now ≤ (s.conferences id).endTime →
      o.checkSignatures (s.conferences id).encryptedStreamKey ck pf = false →
        decryptStreamKey o s now id ck pf = .error .ProofInvalid) ∧
    ((∃ s', decryptStreamKey o s now id ck pf = .ok s') ↔
      (id ∈ s.conferenceIds ∧
       (s.conferences id).isDecrypted = false ∧
       (s.conferences id).startTime ≤ now ∧
       now ≤ (s.conferences id).endTime ∧
       o.checkSignatures (s.conferences id).encryptedStreamKey ck pf = true)) := by
  have hmg := mem_iff_guard (reachable_goodState h) hne
  obtain ⟨g1, g2, g3, g4, g5⟩ := decryptStreamKey_guard_cases o s now id ck pf
  refine ⟨?_, ?_, ?_, ?_, ?_⟩
  · intro hnm
    exact g1 (Nat.eq_zero_of_not_pos fun hpos => hnm (hmg.mpr hpos))
  · intro hm
    exact g2 (hmg.mp hm)
  · intro hm
    exact g3 (hmg.mp hm)
  · intro hm
    exact g4 (hmg.mp hm)
  · rw [g5, hmg]

/-- C2 witness: the amended claim evaluated on fresh storage (unknown id:
`NotFound`) and on `exampleState` (record stored, undecrypted, in window,
proof accepted: success). -/
theorem spec_C2_witness :
    decryptStreamKey oracle0 initialState 1 "c" 3 4 = .error .NotFound ∧
    (∃ s', decryptStreamKey oracle0 exampleState 1 "c" 42 9 = .ok s') :=
  ⟨(spec_C2_submitDecryption_cases oracle0 initialState Reachable.init "c"
      (by decide) 1 3 4).1 (by decide),
   (spec_C2_submitDecryption_cases oracle0 exampleState exampleState_reachable
      "c" (by decide) 1 42 9).2.2.2.2.mpr
     ⟨by decide, rfl, by decide, by decide, rfl⟩⟩

/-- Guard-order case analysis of `endConference`, phrased in terms of the
contract's sentinel existence guard (the stored `conferenceId` is
nonempty). -/
theorem endConference_guard_cases (s : ContractState) (sender now : Nat) (id : String) :
    ((s.conferences id).conferenceId.length = 0 →
        endConference s sender now id = .error .NotFound) ∧
    (0 < (s.conferences id).conferenceId.length →
      sender ≠ (s.conferences id).creator →
        endConference s sender now id = .error .Forbidden) ∧
    (0 < (s.conferences id).conferenceId.length →
      sender = (s.conferences id).creator → now ≤ (s.conferences id).endTime →
        endConference s sender now id = .error .StillActive) ∧
    (0 < (s.conferences id).conferenceId.length →
      sender = (s.conferences id).creator → (s.conferences id).endTime < now →
        ∃ s', endConference s sender now id = .ok s') ∧
    (∀ s', endConference s sender now id = .ok s' →
      (s'.conferences id).isActive = false ∧
      getConferenceDetails s' id =
        .ok ((s.conferences id).creator, (s.conferences id).startTime,
             (s.conferences id).endTime, false, (s.conferences id).isDecrypted,
             (s.conferences id).decryptedStreamKey)) := by
  refine ⟨?_, ?_, ?_, ?_, ?_⟩
  · intro h
    simp [endConference, h]
  · intro h1 h2
    simp [endConference, h1, h2]
  · intro h1 h2 h3
    simp [endConference, h1, h2, Nat.not_lt.mpr h3]
  · intro h1 h2 h3
    exact ⟨setConf s id { s.conferences id with isActive := false },
      by simp [endConference, h1, h2, h3]⟩
  · intro s' h
    rw [endConference_ok_iff] at h
    obtain ⟨h1, -, -, rfl⟩ := h
    constructor
    · simp [setConf]
    · simp [getConferenceDetails, setConf, h1]

/-- C5, counterexample: at the reachable storage holding a record under the
empty id, the record's creator (5) calls `endConference` after `endTime`
(time 3 > 2); the claim's "otherwise succeeds" clause demands success, yet
the call reverts with `NotFound`. -/
theorem spec_C5_counterexample :
    createConference oracle0 initialState 5 0 "" 7 9 1 2 = .ok emptyIdState ∧
    "" ∈ emptyIdState.conferenceIds ∧
    (emptyIdState.conferences "").creator = 5 ∧
    (emptyIdState.conferences "").endTime < 3 ∧
    endConference emptyIdState 5 3 "" = .error .NotFound :=
  ⟨rfl, by decide, rfl, by decide, rfl⟩

/-- C5 (amended to nonempty ids, stored = in the id list): on any reachable
storage and for every nonempty id, `endConference` fails with `NotFound`
when no record with that id is stored, with `Forbidden` when the caller is
not the record's creator, with `StillActive` when the time is at most
`endTime`; otherwise it succeeds, clears `isActive`, and a subsequent
`getConferenceDetails` shows `isActive = false`.  (On the empty id the call
fails with `NotFound` even when a record is stored.) -/
theorem spec_C5_end_cases (o : FHEOracle) (s : ContractState)
    (h : Reachable o s) (id : String) (hne : id ≠ "") (sender now : Nat) :
    (id ∉ s.conferenceIds → endConference s sender now id = .error .NotFound) ∧
    (id ∈ s.conferenceIds → sender ≠ (s.conferences id).creator →
        endConference s sender now id = .error .Forbidden) ∧
    (id ∈ s.conferenceIds → sender = (s.conferences id).creator →
      now ≤ (s.conferences id).endTime →
        endConference s sender now id = .error .StillActive) ∧
    (id ∈ s.conferenceIds → sender = (s.conferences id).creator →
      (s.conferences id).endTime < now →
        ∃ s', endConference s sender now id = .ok s') ∧
    (∀ s', endConference s sender now id = .ok s' →
      (s'.conferences id).isActive = false ∧
      getConferenceDetails s' id =
        .ok ((s.conferences id).creator, (s.conferences id).startTime,
             (s.conferences id).endTime, false, (s.conferences id).isDecrypted,
             (s.conferences id).decryptedStreamKey)) := by
  have hmg := mem_iff_guard (reachable_goodState h) hne
  obtain ⟨g1, g2, g3, g4, g5⟩ := endConference_guard_cases s sender now id
  refine ⟨?_, ?_, ?_, ?_, g5⟩
  · intro hnm
    exact g1 (Nat.eq_zero_of_not_pos fun hpos => hnm (hmg.mpr hpos))
  · intro hm
    exact g2 (hmg.mp hm)
  · intro hm
    exact g3 (hmg.mp hm)
  · intro hm
    exact g4 (hmg.mp hm)

/-- C5 witness: the amended claim on `exampleState` (creator 5, window
`[1,2]`): a non-creator call fails `Forbidden`, a creator call at time 2
fails `StillActive`, and a creator call at time 3 succeeds. -/
theorem spec_C5_witness :
    endConference exampleState 6 3 "c" = .error .Forbidden ∧
    endConference exampleState 5 2 "c" = .error .StillActive ∧
    (∃ s', endConference exampleState 5 3 "c" = .ok s') :=
  ⟨(spec_C5_end_cases oracle0 exampleState exampleState_reachable "c"
      (by decide) 6 3).2.1 (by decide) (by decide),
   (spec_C5_end_cases oracle0 exampleState exampleState_reachable "c"
      (by decide) 5 2).2.2.1 (by decide) (by decide) (by decide),
   (spec_C5_end_cases oracle0 exampleState exampleState_reachable "c"
      (by decide) 5 3).2.2.2.1 (by decide) (by decide) (by decide)⟩

/-- C7: on any reachable storage, every read exposed by the contract
(`getConferenceDetails`, `getEncryptedStreamKey`, `isConferenceActive`)
fails with `NotFound` on an id for which no record exists (no successful
create ever stored it), instead of returning a default record. -/
theorem spec_C7_reads (o : FHEOracle) (s : ContractState) (h : Reachable o s)
    (id : String) (hm : id ∉ s.conferenceIds) :
    getConferenceDetails s id = .error .NotFound ∧
    getEncryptedStreamKey s id = .error .NotFound ∧
    isConferenceActive s id = .error .NotFound := by
  obtain ⟨hempty, -, -, -⟩ := reachable_goodState h
  have he := hempty id hm
  refine ⟨?_, ?_, ?_⟩ <;>
    simp [getConferenceDetails, getEncryptedStreamKey, isConferenceActive,
      he, emptyConference]

/-- C7 witness: the reads on fresh storage at id `"c"`. -/
theorem spec_C7_witness :
    getConferenceDetails initialState "c" = .error .NotFound ∧
    getEncryptedStreamKey initialState "c" = .error .NotFound ∧
    isConferenceActive initialState "c" = .error .NotFound :=
  spec_C7_reads oracle0 initialState Reachable.init "c" (by decide)

/-- C9: a reverted transaction (any of the three mutating operations
failing with any error) leaves the entire storage — the record mapping and
the id list — exactly as it was. -/
theorem spec_C9_atomicity (o : FHEOracle) (s : ContractState) (op : Op)
    (e : ConfError) (h : runOp o s op = .error e) :
    applyOp o s op = s ∧
    (applyOp o s op).conferenceIds = s.conferenceIds ∧
    ∀ id, (applyOp o s op).conferences id = s.conferences id := by
  have hs : applyOp o s op = s := by simp [applyOp, h]
  exact ⟨hs, by rw [hs], fun id => by rw [hs]⟩

/-- C9 witness: a failing `endConference` on fresh storage changes nothing. -/
theorem spec_C9_witness :
    applyOp oracle0 initialState (Op.endConf 1 5 "c") = initialState ∧
    (applyOp oracle0 initialState (Op.endConf 1 5 "c")).conferenceIds
        = initialState.conferenceIds ∧
    ∀ id, (applyOp oracle0 initialState (Op.endConf 1 5 "c")).conferences id
        = initialState.conferences id :=
  spec_C9_atomicity oracle0 initialState (Op.endConf 1 5 "c")
    ConfError.NotFound rfl

/-- C10: on every reachable storage the empty-id record keeps an empty
stored `conferenceId`, so `createConference("")` never fails with
`AlreadyExists` (a successful repeated call overwrites the stored record),
while every operation guarded by the existence check —
`getConferenceDetails`, `getEncryptedStreamKey`, `isConferenceActive`,
`decryptStreamKey`, `endConference` — fails with `NotFound` on the empty
id, even when a record with that id is stored. -/
theorem spec_C10_emptyId (o : FHEOracle) (s : ContractState)
    (h : Reachable o s) (sender now ek pf st en ck dpf : Nat) :
    createConference o s sender now "" ek pf st en ≠ .error .AlreadyExists ∧
    (∀ s', createConference o s sender now "" ek pf st en = .ok s' →
      s'.conferences "" = createdConference o sender "" ek pf st en) ∧
    getConferenceDetails s "" = .error .NotFound ∧
    getEncryptedStreamKey s "" = .error .NotFound ∧
    isConferenceActive s "" = .error .NotFound ∧
    decryptStreamKey o s now "" ck dpf = .error .NotFound ∧
    endConference s sender now "" = .error .NotFound := by
  obtain ⟨-, -, ⟨h3, -, -⟩, -⟩ := reachable_goodState h
  have len0 : (s.conferences "").conferenceId.length = 0 := by
    rw [h3]; rfl
  refine ⟨?_, ?_, ?_, ?_, ?_, ?_, ?_⟩
  · intro hcontra
    simp only [createConference, len0, if_true] at hcontra
    by_cases h2 : o.isInitialized (o.fromExternal ek pf) = true <;>
      by_cases h4 : st < en <;> by_cases h5 : now < en <;>
      simp [h2, h4, h5] at hcontra
  · intro s' hok
    rw [createConference_ok_iff] at hok
    obtain ⟨-, -, -, -, rfl⟩ := hok
    simp [setConf]
  · simp [getConferenceDetails, len0]
  · simp [getEncryptedStreamKey, len0]
  · simp [isConferenceActive, len0]
  · simp [decryptStreamKey, len0]
  · simp [endConference, len0]

/-- C10 witness: evaluated on the reachable storage that already holds a
record under the empty id. -/
theorem spec_C10_witness :
    createConference oracle0 emptyIdState 6 0 "" 8 9 1 2 ≠ .error .AlreadyExists ∧
    getConferenceDetails emptyIdState "" = .error .NotFound ∧
    endConference emptyIdState 5 3 "" = .error .NotFound :=
  ⟨(spec_C10_emptyId oracle0 emptyIdState emptyIdState_reachable 6 0 8 9 1 2 3 4).1,
   (spec_C10_emptyId oracle0 emptyIdState emptyIdState_reachable 6 0 8 9 1 2 3 4).2.2.1,
   (spec_C10_emptyId oracle0 emptyIdState emptyIdState_reachable 5 3 8 9 1 2 3 4).2.2.2.2.2.2⟩

/-- The storage after a successful `decryptStreamKey("c", 42, 9)` at time 1
on `exampleState`. -/
def decryptedState : ContractState :=
  setConf exampleState "c"
    { exampleState.conferences "c" with
      decryptedStreamKey := oracle0.abiDecodeUint32 42
      isDecrypted := true }

theorem decryptedState_eq :
    decryptStreamKey oracle0 exampleState 1 "c" 42 9 = .ok decryptedState := rfl

/-- The storage after a successful `endConference("c")` by the creator at
time 3 on `exampleState`. -/
def endedState : ContractState :=
  setConf exampleState "c" { exampleState.conferences "c" with isActive := false }

theorem endedState_eq :
    endConference exampleState 5 3 "c" = .ok endedState := rfl

/-- C3: on any reachable storage, a successful `decryptStreamKey` on an id
sets its decrypted flag and stores the decoded clear key; from then on,
after any further transaction sequence, the flag stays set, the stored
clear key is unchanged, and every later `decryptStreamKey` on the same id
fails with `AlreadyDecrypted`; moreover no transaction other than a
`decryptStreamKey` call on that id ever changes the pair
`decryptedStreamKey`/`isDecrypted` of its record. -/
theorem spec_C3_decrypt_once (o : FHEOracle) (s : ContractState)
    (h : Reachable o s) (id : String) :
    (∀ now ck pf s', decryptStreamKey o s now id ck pf = .ok s' →
      (s'.conferences id).isDecrypted = true ∧
      (s'.conferences id).decryptedStreamKey = o.abiDecodeUint32 ck ∧
      ∀ ops now2 ck2 pf2,
        decryptStreamKey o (runOps o s' ops) now2 id ck2 pf2
            = .error .AlreadyDecrypted ∧
        ((runOps o s' ops).conferences id).decryptedStreamKey
            = o.abiDecodeUint32 ck ∧
        ((runOps o s' ops).conferences id).isDecrypted = true) ∧
    (∀ op, (∀ now' ck' pf', op ≠ Op.decrypt now' id ck' pf') →
      ((applyOp o s op).conferences id).decryptedStreamKey
          = (s.conferences id).decryptedStreamKey ∧
      ((applyOp o s op).conferences id).isDecrypted
          = (s.conferences id).isDecrypted) := by
  have hg := reachable_goodState h
  constructor
  · intro now ck pf s' hok
    have hg' : GoodState s' := goodState_decrypt hg hok
    have hfields : (s'.conferences id).isDecrypted = true ∧
        (s'.conferences id).decryptedStreamKey = o.abiDecodeUint32 ck := by
      rw [decryptStreamKey_ok_iff] at hok
      obtain ⟨-, -, -, -, -, rfl⟩ := hok
      simp [setConf]
    refine ⟨hfields.1, hfields.2, ?_⟩
    intro ops now2 ck2 pf2
    have hper := @decrypted_persists_runOps o s' hg' id ops hfields.1
    have hgops : GoodState (runOps o s' ops) := goodState_runOps hg' ops
    have hlen2 : 0 < ((runOps o s' ops).conferences id).conferenceId.length :=
      decrypted_nonempty hgops id hper.1
    exact ⟨by simp [decryptStreamKey, hlen2, hper.1],
           hper.2.trans hfields.2, hper.1⟩
  · intro op hop
    exact decrypted_fields_applyOp hg id op hop

/-- C3 witness: decrypting `"c"` on `exampleState` sets the flag, and a
second `decryptStreamKey` on the resulting storage fails with
`AlreadyDecrypted`. -/
theorem spec_C3_witness :
    (decryptedState.conferences "c").isDecrypted = true ∧
    decryptStreamKey oracle0 decryptedState 1 "c" 7 8
        = .error .AlreadyDecrypted :=
  ⟨((spec_C3_decrypt_once oracle0 exampleState exampleState_reachable "c").1
      1 42 9 decryptedState decryptedState_eq).1,
   (((spec_C3_decrypt_once oracle0 exampleState exampleState_reachable "c").1
      1 42 9 decryptedState decryptedState_eq).2.2 [] 1 7 8).1⟩

/-- C4, counterexample: with the empty id a record is stored by the first
`createConference` (its creator is 5), yet a second `createConference` with
the same id succeeds instead of failing with `AlreadyExists`, and it
overwrites the stored record (the creator becomes 6). -/
theorem spec_C4_counterexample :
    createConference oracle0 initialState 5 0 "" 7 9 1 2 = .ok emptyIdState ∧
    createConference oracle0 emptyIdState 6 0 "" 8 9 1 2 = .ok emptyIdState2 ∧
    (emptyIdState.conferences "").creator = 5 ∧
    (emptyIdState2.conferences "").creator = 6 :=
  ⟨rfl, rfl, rfl, rfl⟩

/-- C4 (amended to nonempty ids): for every nonempty id, `createConference`
fails with `AlreadyExists` when a record with that id is already stored (on
reachable storage); when the id is free and the encrypted input is accepted
it fails with `InvalidWindow` if `startTime ≥ endTime` or `endTime ≤ now`;
every failing create leaves the storage unchanged; and a second create with
the same nonempty id fails with `AlreadyExists`, leaving the storage as
after the first create only. -/
theorem spec_C4_create_guards (o : FHEOracle) (s : ContractState)
    (sender now : Nat) (id : String) (ek pf st en : Nat) :
    (Reachable o s → id ≠ "" → id ∈ s.conferenceIds →
      createConference o s sender now id ek pf st en = .error .AlreadyExists) ∧
    ((s.conferences id).conferenceId.length = 0 →
      o.isInitialized (o.fromExternal ek pf) = true →
      (en ≤ st ∨ en ≤ now) →
      createConference o s sender now id ek pf st en = .error .InvalidWindow) ∧
    (∀ e, createConference o s sender now id ek pf st en = .error e →
      applyOp o s (Op.create sender now id ek pf st en) = s) ∧
    (id ≠ "" → ∀ s', createConference o s sender now id ek pf st en = .ok s' →
      ∀ sender2 now2 ek2 pf2 st2 en2,
        createConference o s' sender2 now2 id ek2 pf2 st2 en2
            = .error .AlreadyExists ∧
        applyOp o s' (Op.create sender2 now2 id ek2 pf2 st2 en2) = s') := by
  refine ⟨?_, ?_, ?_, ?_⟩
  · intro hr hne hmem
    obtain ⟨-, hkey, -, -⟩ := reachable_goodState hr
    have hcid := hkey id hne hmem
    have hlen : ¬ (s.conferences id).conferenceId.length = 0 := by
      rw [hcid]
      exact fun h0 => hne (length_eq_zero_iff.mp h0)
    simp [createConference, hlen]
  · intro h1 h2 h3
    rcases h3 with h3 | h3
    · simp [createConference, h1, h2, Nat.not_lt.mpr h3]
    · by_cases hst : st < en
      · simp [createConference, h1, h2, hst, Nat.not_lt.mpr h3]
      · simp [createConference, h1, h2, hst]
  · intro e he
    simp [applyOp, runOp, he]
  · intro hne s' hok sender2 now2 ek2 pf2 st2 en2
    rw [createConference_ok_iff] at hok
    obtain ⟨-, -, -, -, rfl⟩ := hok
    have herr : createConference o
        { setConf s id (createdConference o sender id ek pf st en) with
          conferenceIds := s.conferenceIds ++ [id] }
        sender2 now2 id ek2 pf2 st2 en2 = .error .AlreadyExists := by
      simp [createConference, setConf, createdConference, length_eq_zero_iff, hne]
    exact ⟨herr, by simp [applyOp, runOp, herr]⟩

/-- C4 witness: the amended claim evaluated on `exampleState`. -/
theorem spec_C4_witness :
    createConference oracle0 exampleState 6 5 "c" 8 9 3 4
        = .error .AlreadyExists ∧
    applyOp oracle0 exampleState (Op.create 6 5 "c" 8 9 3 4) = exampleState :=
  (spec_C4_create_guards oracle0 initialState 5 0 "c" 7 9 1 2).2.2.2
    (by decide) exampleState exampleState_eq 6 5 8 9 3 4

/-- C6: on any reachable storage, a created record whose `isActive` flag is
false never becomes active again under any transaction sequence, and a
successful `endConference` clears the flag permanently — so the true→false
transition happens at most once per record and never reverses. -/
theorem spec_C6_isActive (o : FHEOracle) (s : ContractState)
    (h : Reachable o s) (id : String) :
    (id ∈ s.conferenceIds → (s.conferences id).isActive = false →
      ∀ ops, ((runOps o s ops).conferences id).isActive = false) ∧
    (∀ sender now s', endConference s sender now id = .ok s' →
      (s'.conferences id).isActive = false ∧
      ∀ ops, ((runOps o s' ops).conferences id).isActive = false) := by
  have hg := reachable_goodState h
  constructor
  · intro hmem hfalse ops
    exact inactive_persists_runOps hg id ops hmem hfalse
  · intro sender now s' hok
    have hg' : GoodState s' := goodState_endConference hg hok
    rw [endConference_ok_iff] at hok
    obtain ⟨hlen, -, -, rfl⟩ := hok
    have hmem : id ∈ s.conferenceIds := (exists_mem_ids hg hlen).1
    have hfalse : ((setConf s id
        { s.conferences id with isActive := false }).conferences id).isActive
          = false := by
      simp [setConf]
    refine ⟨hfalse, fun ops => inactive_persists_runOps hg' id ops ?_ hfalse⟩
    simpa [setConf_ids] using hmem

/-- C6 witness: ending `"c"` on `exampleState` clears the flag, and it stays
cleared even after a further (successful) `endConference` transaction. -/
theorem spec_C6_witness :
    (endedState.conferences "c").isActive = false ∧
    ((runOps oracle0 endedState [Op.endConf 5 4 "c"]).conferences "c").isActive
        = false :=
  ⟨((spec_C6_isActive oracle0 exampleState exampleState_reachable "c").2
      5 3 endedState endedState_eq).1,
   ((spec_C6_isActive oracle0 exampleState exampleState_reachable "c").2
      5 3 endedState endedState_eq).2 [Op.endConf 5 4 "c"]⟩

theorem applyOp_create_ids (o : FHEOracle) (s : ContractState)
    (sender now : Nat) (id : String) (ek pf st en : Nat) :
    (applyOp o s (Op.create sender now id ek pf st en)).conferenceIds
      = s.conferenceIds ++
        (if (runOp o s (Op.create sender now id ek pf st en)).isOk
         then [id] else []) := by
  unfold applyOp
  cases hrun : runOp o s (Op.create sender now id ek pf st en) with
  | error e => simp [Except.isOk, Except.toBool]
  | ok s' =>
      simp only [runOp] at hrun
      rw [createConference_ok_iff] at hrun
      obtain ⟨-, -, -, -, rfl⟩ := hrun
      simp [Except.isOk, Except.toBool]

theorem applyOp_decrypt_ids (o : FHEOracle) (s : ContractState)
    (now : Nat) (id : String) (ck pf : Nat) :
    (applyOp o s (Op.decrypt now id ck pf)).conferenceIds = s.conferenceIds := by
  unfold applyOp
  cases hrun : runOp o s (Op.decrypt now id ck pf) with
  | error e => rfl
  | ok s' =>
      simp only [runOp] at hrun
      rw [decryptStreamKey_ok_iff] at hrun
      obtain ⟨-, -, -, -, -, rfl⟩ := hrun
      simp [setConf_ids]

theorem applyOp_endConf_ids (o : FHEOracle) (s : ContractState)
    (sender now : Nat) (id : String) :
    (applyOp o s (Op.endConf sender now id)).conferenceIds = s.conferenceIds := by
  unfold applyOp
  cases hrun : runOp o s (Op.endConf sender now id) with
  | error e => rfl
  | ok s' =>
      simp only [runOp] at hrun
      rw [endConference_ok_iff] at hrun
      obtain ⟨-, -, -, rfl⟩ := hrun
      simp [setConf_ids]

theorem succCreates_cons_create (o : FHEOracle) (s : ContractState)
    (sender now : Nat) (id : String) (ek pf st en : Nat) (ops : List Op) :
    succCreates o s (Op.create sender now id ek pf st en :: ops)
      = (if (runOp o s (Op.create sender now id ek pf st en)).isOk
         then [id] else [])
        ++ succCreates o (applyOp o s (Op.create sender now id ek pf st en)) ops :=
  rfl

theorem succCreates_cons_decrypt (o : FHEOracle) (s : ContractState)
    (now : Nat) (id : String) (ck pf : Nat) (ops : List Op) :
    succCreates o s (Op.decrypt now id ck pf :: ops)
      = succCreates o (applyOp o s (Op.decrypt now id ck pf)) ops := rfl

theorem succCreates_cons_endConf (o : FHEOracle) (s : ContractState)
    (sender now : Nat) (id : String) (ops : List Op) :
    succCreates o s (Op.endConf sender now id :: ops)
      = succCreates o (applyOp o s (Op.endConf sender now id)) ops := rfl

theorem runOps_ids (o : FHEOracle) (ops : List Op) : ∀ s : ContractState,
    (runOps o s ops).conferenceIds = s.conferenceIds ++ succCreates o s ops := by
  induction ops with
  | nil => intro s; simp [runOps, succCreates]
  | cons op ops ih =>
      intro s
      rw [runOps_cons, ih]
      cases op with
      | create sender now id ek pf st en =>
          rw [succCreates_cons_create, ← List.append_assoc, applyOp_create_ids]
      | decrypt now id ck pf =>
          rw [succCreates_cons_decrypt, applyOp_decrypt_ids]
      | endConf sender now id =>
          rw [succCreates_cons_endConf, applyOp_endConf_ids]

/-- C8: after any transaction sequence from deployment,
`getAllConferenceIds` returns exactly the ids of the successful
`createConference` calls, in order; and neither a `decryptStreamKey` nor an
`endConference` transaction (successful or not) ever changes the list. -/
theorem spec_C8_listIds (o : FHEOracle) (ops : List Op) :
    getAllConferenceIds (runOps o initialState ops)
        = succCreates o initialState ops ∧
    (∀ s now id ck pf,
      getAllConferenceIds (applyOp o s (Op.decrypt now id ck pf))
        = getAllConferenceIds s) ∧
    (∀ s sender now id,
      getAllConferenceIds (applyOp o s (Op.endConf sender now id))
        = getAllConferenceIds s) := by
  refine ⟨?_, ?_, ?_⟩
  · have h := runOps_ids o ops initialState
    simpa [getAllConferenceIds, initialState] using h
  · intro s now id ck pf
    exact applyOp_decrypt_ids o s now id ck pf
  · intro s sender now id
    exact applyOp_endConf_ids o s sender now id

end EncryptedVideoConference
